import Mathlib

/-!
Verification of the mask-based background-removal pipeline of this
repository.  The definitions below are shallow embeddings of the
TypeScript sources:

* part_002, `refineMask` (lines 30-48): discrete neighbour-expansion
  dilation over a flat row-major mask;
* part_001 / part_002, `removeBackground` pixel loop: alpha zeroing of
  background pixels;
* client/src/lib/backgroundRemover.ts: mask building, blur-and-rethreshold
  dilation (average rule), destination-in compositing;
* part_002 second variant: blur-and-rethreshold with the any-channel rule;
* server routes (part_010) + shared/schema.ts: settings validation and store;
* the lazy BodyPix model loader, as an interleaving machine.

Uint8 pixel values are modelled as `Nat`; the code under scrutiny never
performs arithmetic that can overflow a byte (it only compares and stores
the constants 0, 1, 128, 255, and averages of three bytes).
-/

/-! ### Array helper lemmas -/

theorem getD_setD (a : Array Nat) (i j v d : Nat) :
    (a.setD i v).getD j d = if i = j ∧ i < a.size then v else a.getD j d := by
  unfold Array.setD
  split
  · rename_i h
    by_cases hij : i = j
    · subst hij
      simp [Array.getD_eq_get?, Array.getElem?_set_eq a ⟨i, h⟩ v, h]
    · rw [Array.getD_eq_get?, Array.getElem?_set_ne _ _ _ hij, if_neg (by tauto),
        ← Array.getD_eq_get?]
  · rename_i h
    rw [if_neg (by tauto)]

theorem getD_oob (a : Array Nat) (j d : Nat) (h : a.size ≤ j) : a.getD j d = d := by
  simp [Array.getD_eq_get?, Array.getElem?_len_le a h]

theorem getD_lt (a : Array Nat) (j d : Nat) (h : j < a.size) : a.getD j d = a[j] := by
  simp [Array.getD_eq_get?, Array.getElem?_lt a h]

/-! ### Generic lemmas about folds that write array cells

Every pixel loop in the sources is a fold over a list of loop indices whose
body performs in-place writes.  `W p` below is the (over-approximated)
write footprint of the loop body at index `p`.  -/

section WriteFold

variable {α : Type} (step : Array Nat → α → Array Nat) (W : α → List Nat)

theorem foldl_step_size (Hs : ∀ a p, (step a p).size = a.size) :
    ∀ (L : List α) (a : Array Nat), (L.foldl step a).size = a.size := by
  intro L
  induction L with
  | nil => intro a; rfl
  | cons p L ih => intro a; rw [List.foldl_cons, ih, Hs]

theorem foldl_step_untouched
    (Hu : ∀ a p j, j ∉ W p → (step a p).getD j 0 = a.getD j 0) :
    ∀ (L : List α) (a : Array Nat) (j : Nat), (∀ p ∈ L, j ∉ W p) →
      (L.foldl step a).getD j 0 = a.getD j 0 := by
  intro L
  induction L with
  | nil => intro a j _; rfl
  | cons p L ih =>
    intro a j hj
    rw [List.foldl_cons, ih (step a p) j (fun q hq => hj q (List.mem_cons_of_mem _ hq)),
      Hu a p j (hj p (List.mem_cons_self _ _))]

theorem foldl_step_write (P : Nat → Prop) (n : Nat)
    (Hs : ∀ a p, (step a p).size = a.size)
    (Hu : ∀ a p j, j ∉ W p → (step a p).getD j 0 = a.getD j 0)
    (p : α) (j : Nat)
    (Hv : ∀ a : Array Nat, a.size = n → P ((step a p).getD j 0)) :
    ∀ (L : List α) (a : Array Nat), a.size = n → p ∈ L →
      (∀ q ∈ L, q ≠ p → j ∉ W q) → P ((L.foldl step a).getD j 0) := by
  intro L
  induction L with
  | nil => intro a _ hp; exact absurd hp (List.not_mem_nil p)
  | cons q L ih =>
    intro a ha hp hW
    rw [List.foldl_cons]
    by_cases hq : p ∈ L
    · exact ih (step a q) (by rw [Hs]; exact ha) hq
        (fun r hr => hW r (List.mem_cons_of_mem _ hr))
    · have hqp : q = p := by
        rcases List.mem_cons.mp hp with h | h
        · exact h.symm
        · exact absurd h hq
      subst hqp
      rw [foldl_step_untouched step W Hu L (step a q) j
        (fun r hr => hW r (List.mem_cons_of_mem _ hr) (fun hrq => hq (hrq ▸ hr)))]
      exact Hv a ha

end WriteFold

/-! ### part_002 `refineMask` (lines 30-48): neighbour-expansion dilation

The source allocates `newMask = new Uint8Array(mask)` and then, for
`iterations` rounds, scans the interior pixels (`1 ≤ x ≤ width-2`,
`1 ≤ y ≤ height-2`); a pixel that is 0 in `mask` and has a 4-connected
neighbour equal to 1 in `mask` is set to 1 in `newMask`.  Note that the
conditions read `mask`, the unmodified input, in every round.  -/

def expands (mask : Array Nat) (width : Nat) (i : Nat) : Bool :=
  mask.getD i 0 == 0 &&
    (mask.getD (i - 1) 0 == 1 || mask.getD (i + 1) 0 == 1 ||
     mask.getD (i - width) 0 == 1 || mask.getD (i + width) 0 == 1)

def dilatePass (mask : Array Nat) (width height : Nat) (newMask : Array Nat) :
    Array Nat :=
  (List.range' 1 (height - 2)).foldl (fun nm y =>
    (List.range' 1 (width - 2)).foldl (fun nm x =>
      if expands mask width (y * width + x) then nm.setD (y * width + x) 1 else nm)
      nm)
    newMask

def refineMask (mask : Array Nat) (width height : Nat) (iterations : Nat := 2) :
    Array Nat :=
  (List.range iterations).foldl (fun newMask _ => dilatePass mask width height newMask)
    mask

/-- Row-major indices of the interior pixels scanned by the two nested loops. -/
def interiorCoords (width height : Nat) : List Nat :=
  (List.range' 1 (height - 2)).flatMap (fun y =>
    (List.range' 1 (width - 2)).map (fun x => y * width + x))

theorem dilatePass_eq_flat (mask : Array Nat) (width height : Nat)
    (newMask : Array Nat) :
    dilatePass mask width height newMask =
      (interiorCoords width height).foldl
        (fun nm i => if expands mask width i then nm.setD i 1 else nm) newMask := by
  unfold dilatePass interiorCoords
  induction (List.range' 1 (height - 2)) generalizing newMask with
  | nil => rfl
  | cons y ys ih =>
    rw [List.flatMap_cons, List.foldl_append, List.foldl_cons, List.foldl_map, ih]

theorem size_dilatePass (mask : Array Nat) (width height : Nat)
    (newMask : Array Nat) :
    (dilatePass mask width height newMask).size = newMask.size := by
  rw [dilatePass_eq_flat]
  exact foldl_step_size _ (fun a p => by split <;> simp) _ _

/-- Write footprint of one interior-loop body iteration. -/
def dilateW (mask : Array Nat) (width : Nat) (i : Nat) : List Nat :=
  if expands mask width i then [i] else []

theorem dilate_untouched (mask : Array Nat) (width : Nat) :
    ∀ (a : Array Nat) (p j : Nat), j ∉ dilateW mask width p →
      ((fun nm i => if expands mask width i then nm.setD i 1 else nm) a p).getD j 0 =
        a.getD j 0 := by
  intro a p j hj
  dsimp only
  unfold dilateW at hj
  split
  · rename_i hex
    rw [hex] at hj
    rw [getD_setD, if_neg]
    intro hc
    exact hj (by simp [hc.1])
  · rfl

theorem getD_dilatePass (mask : Array Nat) (width height : Nat)
    (newMask : Array Nat) (hsz : newMask.size = mask.size) (j : Nat) :
    (dilatePass mask width height newMask).getD j 0 =
      if j ∈ interiorCoords width height ∧ expands mask width j = true ∧
          j < mask.size
      then 1 else newMask.getD j 0 := by
  rw [dilatePass_eq_flat]
  by_cases hmem : j ∈ interiorCoords width height ∧ expands mask width j = true ∧
      j < mask.size
  · rw [if_pos hmem]
    refine foldl_step_write _ (dilateW mask width) (fun v => v = 1) mask.size
      (fun a p => by split <;> simp)
      (dilate_untouched mask width) j j ?_ _ newMask hsz hmem.1 ?_
    · intro a ha
      dsimp only
      rw [if_pos hmem.2.1, getD_setD, if_pos ⟨rfl, by rw [ha]; exact hmem.2.2⟩]
    · intro q _ hqj
      unfold dilateW
      split
      · intro hc
        exact hqj ((List.mem_singleton.mp hc).symm)
      · simp
  · rw [if_neg hmem]
    by_cases hj : j < mask.size
    · refine foldl_step_untouched _ (dilateW mask width)
        (dilate_untouched mask width) _ newMask j ?_
      intro p hp
      unfold dilateW
      split
      · rename_i hex
        intro hc
        rcases List.mem_singleton.mp hc with rfl
        exact hmem ⟨hp, hex, hj⟩
      · simp
    · have h1 : (List.foldl (fun nm i =>
          if expands mask width i then nm.setD i 1 else nm) newMask
          (interiorCoords width height)).size = newMask.size :=
        foldl_step_size _ (fun a p => by split <;> simp) _ _
      rw [getD_oob _ _ _ (by omega), getD_oob _ _ _ (by omega)]

theorem size_refineMask (mask : Array Nat) (width height n : Nat) :
    (refineMask mask width height n).size = mask.size :=
  foldl_step_size _ (fun a _ => size_dilatePass mask width height a) _ _

theorem refineMask_succ (mask : Array Nat) (width height n : Nat) :
    refineMask mask width height (n + 1) =
      dilatePass mask width height (refineMask mask width height n) := by
  unfold refineMask
  rw [List.range_succ, List.foldl_append, List.foldl_cons, List.foldl_nil]

theorem getD_refineMask (mask : Array Nat) (width height n : Nat) (hn : 1 ≤ n)
    (j : Nat) :
    (refineMask mask width height n).getD j 0 =
      if j ∈ interiorCoords width height ∧ expands mask width j = true ∧
          j < mask.size
      then 1 else mask.getD j 0 := by
  induction n with
  | zero => omega
  | succ n ih =>
    rw [refineMask_succ,
      getD_dilatePass mask width height _ (size_refineMask mask width height n) j]
    by_cases hc : j ∈ interiorCoords width height ∧ expands mask width j = true ∧
        j < mask.size
    · rw [if_pos hc, if_pos hc]
    · rw [if_neg hc, if_neg hc]
      rcases Nat.eq_zero_or_pos n with hz | hpos
      · subst hz; rfl
      · rw [ih hpos, if_neg hc]

theorem refineMask_collapse (mask : Array Nat) (width height n : Nat)
    (hn : 1 ≤ n) :
    refineMask mask width height n = refineMask mask width height 1 := by
  apply Array.ext
  · rw [size_refineMask, size_refineMask]
  · intro i hi1 hi2
    rw [← getD_lt _ _ 0 hi1, ← getD_lt _ _ 0 hi2,
      getD_refineMask mask width height n hn i,
      getD_refineMask mask width height 1 (Nat.le_refl 1) i]

theorem mem_interiorCoords (width height x y : Nat) (hx1 : 1 ≤ x)
    (hx2 : x < width - 1) (hy1 : 1 ≤ y) (hy2 : y < height - 1) :
    y * width + x ∈ interiorCoords width height := by
  unfold interiorCoords
  refine List.mem_flatMap.mpr ⟨y, List.mem_range'_1.mpr ⟨hy1, by omega⟩, ?_⟩
  exact List.mem_map.mpr ⟨x, List.mem_range'_1.mpr ⟨hx1, by omega⟩, rfl⟩

theorem border_not_mem_interiorCoords (width height x y : Nat) (hx : x < width)
    (hb : x = 0 ∨ x = width - 1 ∨ y = 0 ∨ y = height - 1) :
    y * width + x ∉ interiorCoords width height := by
  intro hmem
  unfold interiorCoords at hmem
  rcases List.mem_flatMap.mp hmem with ⟨y', hy', hmem2⟩
  rcases List.mem_map.mp hmem2 with ⟨x', hx', heq⟩
  rcases List.mem_range'_1.mp hy' with ⟨hy1, hy2⟩
  rcases List.mem_range'_1.mp hx' with ⟨hx1, hx2⟩
  have hxw : x' < width := by omega
  have h1 : (y' * width + x') % width = x' := by
    rw [Nat.add_comm, Nat.add_mul_mod_self_right, Nat.mod_eq_of_lt hxw]
  have h2 : (y * width + x) % width = x := by
    rw [Nat.add_comm, Nat.add_mul_mod_self_right, Nat.mod_eq_of_lt hx]
  have hxx : x' = x := by rw [← h1, heq, h2]
  have hyy : y' = y := by
    have := heq
    rw [hxx] at this
    have hw : 0 < width := by omega
    have hmul : y' * width = y * width := by omega
    exact Nat.eq_of_mul_eq_mul_right hw hmul
  omega

theorem expands_of (mask : Array Nat) (width j : Nat)
    (h0 : mask.getD j 0 = 0)
    (hadj : mask.getD (j - 1) 0 = 1 ∨ mask.getD (j + 1) 0 = 1 ∨
      mask.getD (j - width) 0 = 1 ∨ mask.getD (j + width) 0 = 1) :
    expands mask width j = true := by
  unfold expands
  rcases hadj with h | h | h | h <;> simp [h0, h]

/-- Number of foreground (nonzero) pixels of a flat mask. -/
def foregroundCount (m : Array Nat) : Nat :=
  (List.range m.size).countP (fun i => m.getD i 0 != 0)

/-- C4: dilation is monotone on the foreground region: for every mask, every
width and height, and every iteration count n ≥ 0, `refineMask` has at least
as many foreground pixels as its input, and it never turns a foreground pixel
into background. -/
theorem refineMask_monotone (mask : Array Nat) (width height n : Nat) :
    foregroundCount mask ≤ foregroundCount (refineMask mask width height n) ∧
    ∀ j, mask.getD j 0 ≠ 0 → (refineMask mask width height n).getD j 0 ≠ 0 := by
  have hpt : ∀ j, mask.getD j 0 ≠ 0 →
      (refineMask mask width height n).getD j 0 ≠ 0 := by
    intro j hj
    rcases Nat.eq_zero_or_pos n with hz | hpos
    · subst hz; exact hj
    · rw [getD_refineMask mask width height n hpos j]
      split
      · exact Nat.one_ne_zero
      · exact hj
  refine ⟨?_, hpt⟩
  unfold foregroundCount
  rw [size_refineMask]
  refine List.countP_mono_left ?_
  intro x _ hpx
  simpa using hpt x (by simpa using hpx)

/-- Concrete 3×3 mask: a single foreground pixel at the top border, next to
the interior centre pixel. -/
def m3 : Array Nat := #[0, 1, 0, 0, 0, 0, 0, 0, 0]

/-- Concrete 5×5 mask: a single foreground pixel at the centre (index 12). -/
def m5 : Array Nat :=
  #[0, 0, 0, 0, 0,
    0, 0, 0, 0, 0,
    0, 0, 1, 0, 0,
    0, 0, 0, 0, 0,
    0, 0, 0, 0, 0]

theorem refineMask_monotone_witness :
    foregroundCount m3 ≤ foregroundCount (refineMask m3 3 3 2) ∧
    (refineMask m3 3 3 2).getD 1 0 ≠ 0 :=
  ⟨(refineMask_monotone m3 3 3 2).1,
   (refineMask_monotone m3 3 3 2).2 1 (by decide)⟩

/-- C5 (counterexample): pixel 6 of the 5×5 mask `m5` is background at
4-connected distance 2 from the foreground pixel 12 (via pixel 7), yet after
2 iterations of `refineMask` it is still background — the expansion does not
compound across iterations, refuting the claimed distance-N growth. -/
theorem refineMask_distance_claim_false :
    m5.getD 12 0 = 1 ∧ m5.getD 7 0 = 0 ∧ m5.getD 6 0 = 0 ∧
    (refineMask m5 5 5 2).getD 7 0 = 1 ∧
    (refineMask m5 5 5 2).getD 6 0 = 0 := by
  decide

/-- C5 (amended): because every iteration tests adjacency against the original
input mask, only a single expansion step is effective: for every n ≥ 1, an
interior background pixel that is 4-adjacent to a foreground pixel of the
original mask becomes foreground in `refineMask mask width height n`. -/
theorem refineMask_flips_adjacent_interior (mask : Array Nat)
    (width height n x y : Nat) (hn : 1 ≤ n)
    (hx1 : 1 ≤ x) (hx2 : x < width - 1) (hy1 : 1 ≤ y) (hy2 : y < height - 1)
    (hsz : y * width + x < mask.size)
    (h0 : mask.getD (y * width + x) 0 = 0)
    (hadj : mask.getD (y * width + x - 1) 0 = 1 ∨
      mask.getD (y * width + x + 1) 0 = 1 ∨
      mask.getD (y * width + x - width) 0 = 1 ∨
      mask.getD (y * width + x + width) 0 = 1) :
    (refineMask mask width height n).getD (y * width + x) 0 = 1 := by
  rw [getD_refineMask mask width height n hn, if_pos]
  exact ⟨mem_interiorCoords width height x y hx1 hx2 hy1 hy2,
    expands_of mask width _ h0 hadj, hsz⟩

theorem refineMask_flips_adjacent_interior_witness :
    (refineMask m3 3 3 1).getD 4 0 = 1 :=
  refineMask_flips_adjacent_interior m3 3 3 1 1 1 (by decide) (by decide)
    (by decide) (by decide) (by decide) (by decide) (by decide)
    (Or.inr (Or.inr (Or.inl (by decide))))

/-- C6: for every iteration count n ≥ 1, `refineMask` returns the same array
as a single iteration — iterations beyond the first have no additional
effect, because every iteration tests adjacency against the original input
mask — and pixels on the image border are never modified. -/
theorem refineMask_iterations_noop (mask : Array Nat) (width height n : Nat)
    (hn : 1 ≤ n) :
    refineMask mask width height n = refineMask mask width height 1 ∧
    ∀ x y, x < width → y < height →
      (x = 0 ∨ x = width - 1 ∨ y = 0 ∨ y = height - 1) →
      (refineMask mask width height n).getD (y * width + x) 0 =
        mask.getD (y * width + x) 0 := by
  refine ⟨refineMask_collapse mask width height n hn, ?_⟩
  intro x y hx _ hb
  rw [getD_refineMask mask width height n hn, if_neg]
  intro hc
  exact border_not_mem_interiorCoords width height x y hx hb hc.1

theorem refineMask_iterations_noop_witness :
    refineMask m3 3 3 2 = refineMask m3 3 3 1 ∧
    (refineMask m3 3 3 2).getD 0 0 = m3.getD 0 0 :=
  ⟨(refineMask_iterations_noop m3 3 3 2 (by decide)).1,
   (refineMask_iterations_noop m3 3 3 2 (by decide)).2 0 0 (by decide) (by decide)
     (Or.inl rfl)⟩

/-! ### Alpha zeroing (part_001 lines 81-92, part_002 lines 93-101)

The compositing loop of the transparent-backdrop variants walks the label
array; for each pixel not labeled foreground it sets the alpha byte (offset
`4*i+3` of the flat RGBA buffer) to 0.  -/

def applyMaskTransparent (pixels : Array Nat) (mask : Array Nat) : Array Nat :=
  (List.range mask.size).foldl (fun px i =>
    if mask.getD i 0 == 0 then px.setD (4 * i + 3) 0 else px) pixels

theorem applyMask_untouched (mask : Array Nat) :
    ∀ (a : Array Nat) (p j : Nat),
      j ∉ (if mask.getD p 0 == 0 then [4 * p + 3] else []) →
      ((fun px i => if mask.getD i 0 == 0 then px.setD (4 * i + 3) 0 else px) a p).getD
        j 0 = a.getD j 0 := by
  intro a p j hj
  dsimp only
  split
  · rename_i hc
    rw [hc] at hj
    rw [getD_setD, if_neg]
    rintro ⟨hc2, -⟩
    exact hj (by simp [hc2])
  · rfl

/-! ### Mask construction (backgroundRemover.ts lines 66-75, part_002 lines 219-231)

`createImageData` yields a zero-initialised RGBA buffer of `4 * labels`
bytes; the loop stores 255 into R, G, B of pixels labeled foreground, 0
otherwise, and 255 into every alpha byte.  -/

def maskValue (seg : Array Bool) (i : Nat) : Nat :=
  if seg.getD i false then 255 else 0

def buildMask (seg : Array Bool) : Array Nat :=
  (List.range seg.size).foldl (fun m i =>
    (((m.setD (4 * i) (maskValue seg i)).setD (4 * i + 1) (maskValue seg i)).setD
      (4 * i + 2) (maskValue seg i)).setD (4 * i + 3) 255)
    (Array.mkArray (4 * seg.size) 0)

theorem buildMask_untouched (seg : Array Bool) :
    ∀ (a : Array Nat) (p j : Nat), j ∉ [4 * p, 4 * p + 1, 4 * p + 2, 4 * p + 3] →
      ((((a.setD (4 * p) (maskValue seg p)).setD (4 * p + 1) (maskValue seg p)).setD
        (4 * p + 2) (maskValue seg p)).setD (4 * p + 3) 255).getD j 0 =
        a.getD j 0 := by
  intro a p j hj
  simp only [List.mem_cons, List.mem_singleton, not_or] at hj
  obtain ⟨h0, h1, h2, h3, -⟩ := hj
  rw [getD_setD, if_neg (by rintro ⟨hc, -⟩; exact h3 hc.symm),
    getD_setD, if_neg (by rintro ⟨hc, -⟩; exact h2 hc.symm),
    getD_setD, if_neg (by rintro ⟨hc, -⟩; exact h1 hc.symm),
    getD_setD, if_neg (by rintro ⟨hc, -⟩; exact h0 hc.symm)]

/-! ### Blur-and-rethreshold (part_002 lines 243-258 and backgroundRemover.ts lines 83-88)

After the canvas blur, both variants walk the RGBA buffer in steps of four.
part_002 sets R, G, B to 255 when any of the three colour channels exceeds
128, else to 0.  backgroundRemover.ts instead compares the average of the
three channels with 128; over the naturals, `(r + g + b) / 3 > 128` holds
exactly when `r + g + b > 384` (the float division in the source is exact
enough for the same equivalence).  -/

def rethresholdAny (data : Array Nat) : Array Nat :=
  (List.range' 0 ((data.size + 3) / 4) 4).foldl (fun d i =>
    if 128 < d.getD i 0 ∨ 128 < d.getD (i + 1) 0 ∨ 128 < d.getD (i + 2) 0 then
      ((d.setD i 255).setD (i + 1) 255).setD (i + 2) 255
    else
      ((d.setD i 0).setD (i + 1) 0).setD (i + 2) 0) data

def rethresholdAvg (data : Array Nat) : Array Nat :=
  (List.range' 0 ((data.size + 3) / 4) 4).foldl (fun d i =>
    if 384 < d.getD i 0 + d.getD (i + 1) 0 + d.getD (i + 2) 0 then
      ((d.setD i 255).setD (i + 1) 255).setD (i + 2) 255
    else
      ((d.setD i 0).setD (i + 1) 0).setD (i + 2) 0) data

/-! ### Destination-in compositing and the pipelines -/

/-- Model of the canvas destination-in draw (backgroundRemover.ts lines
92-94): the destination keeps its colour channels and its alpha is scaled by
the source (mask) alpha. -/
def destinationIn (dst maskData : Array Nat) : Array Nat :=
  (List.range (dst.size / 4)).foldl (fun out i =>
    out.setD (4 * i + 3)
      (dst.getD (4 * i + 3) 0 * maskData.getD (4 * i + 3) 0 / 255)) dst

/-- Decoded raster image: dimensions plus flat RGBA byte data. -/
structure Img where
  width : Nat
  height : Nat
  data : Array Nat
deriving DecidableEq

/-- Pipeline of part_001 `removeBackground`: canvas sized from the image,
alpha zeroing, no refinement options. -/
def removeBackgroundP1 (img : Img) (seg : Array Nat) : Img :=
  { width := img.width, height := img.height,
    data := applyMaskTransparent img.data seg }

/-- Pipeline of part_002 (first variant) `removeBackground`: optional
neighbour-expansion refinement (2 iterations), alpha zeroing, optional final
blur (the canvas blur filter is abstracted as `blurImage`). -/
def removeBackgroundP2 (img : Img) (seg : Array Nat) (refineEdges : Bool)
    (blurEffect : Nat) (blurImage : Array Nat → Array Nat) : Img :=
  let mask := if refineEdges then refineMask seg img.width img.height 2 else seg
  let data0 := applyMaskTransparent img.data mask
  { width := img.width, height := img.height,
    data := if 0 < blurEffect then blurImage data0 else data0 }

/-- Pipeline of backgroundRemover.ts `removeBackground`: mask construction,
optional blur-and-rethreshold dilation, destination-in compositing, optional
final edge blur (canvas blur filters abstracted as `blurMask`/`blurImage`). -/
def removeBackgroundBR (img : Img) (seg : Array Bool)
    (edgeDilation edgeBlurAmount : Nat)
    (blurMask blurImage : Array Nat → Array Nat) : Img :=
  let maskData0 := buildMask seg
  let maskData :=
    if 0 < edgeDilation then rethresholdAvg (blurMask maskData0) else maskData0
  let composited := destinationIn img.data maskData
  { width := img.width, height := img.height,
    data := if 0 < edgeBlurAmount then blurImage composited else composited }

/-! ### A fold lemma for loop bodies whose reads stay inside their footprint -/

section WriteFoldFrozen

variable {α : Type} (step : Array Nat → α → Array Nat) (W : α → List Nat)

theorem foldl_step_write_frozen (P : Nat → Prop) (n : Nat) (a0 : Array Nat)
    (Hs : ∀ a p, (step a p).size = a.size)
    (Hu : ∀ a p j, j ∉ W p → (step a p).getD j 0 = a.getD j 0)
    (p : α) (j : Nat)
    (Hv : ∀ a : Array Nat, a.size = n → (∀ m ∈ W p, a.getD m 0 = a0.getD m 0) →
      P ((step a p).getD j 0)) :
    ∀ (L : List α) (a : Array Nat), L.Nodup → a.size = n →
      (∀ m ∈ W p, a.getD m 0 = a0.getD m 0) → p ∈ L →
      (∀ q ∈ L, q ≠ p → j ∉ W q ∧ ∀ m ∈ W p, m ∉ W q) →
      P ((L.foldl step a).getD j 0) := by
  intro L
  induction L with
  | nil => intro a _ _ _ hp; exact absurd hp (List.not_mem_nil p)
  | cons q L ih =>
    intro a hnd ha hag hp hW
    obtain ⟨hqL, hndL⟩ := List.nodup_cons.mp hnd
    rw [List.foldl_cons]
    by_cases hq : p ∈ L
    · have hqp : q ≠ p := fun h => hqL (h ▸ hq)
      refine ih (step a q) hndL (by rw [Hs]; exact ha) ?_ hq
        (fun r hr => hW r (List.mem_cons_of_mem _ hr))
      intro m hm
      rw [Hu a q m ((hW q (List.mem_cons_self _ _) hqp).2 m hm)]
      exact hag m hm
    · have hqp : q = p := by
        rcases List.mem_cons.mp hp with h | h
        · exact h.symm
        · exact absurd h hq
      subst hqp
      rw [foldl_step_untouched step W Hu L (step a q) j ?_]
      · exact Hv a ha hag
      · intro r hr
        exact (hW r (List.mem_cons_of_mem _ hr) (fun hrq => hq (hrq ▸ hr))).1

end WriteFoldFrozen

/-! ### Lemmas about the rethreshold triple writes -/

theorem triplet_getD_of (a : Array Nat) (p j v : Nat)
    (hj : j = p ∨ j = p + 1 ∨ j = p + 2) (hsz : j < a.size) :
    (((a.setD p v).setD (p + 1) v).setD (p + 2) v).getD j 0 = v := by
  rcases hj with rfl | rfl | rfl
  · rw [getD_setD, if_neg (by rintro ⟨hc, -⟩; omega),
      getD_setD, if_neg (by rintro ⟨hc, -⟩; omega),
      getD_setD, if_pos ⟨rfl, hsz⟩]
  · rw [getD_setD, if_neg (by rintro ⟨hc, -⟩; omega),
      getD_setD, if_pos ⟨rfl, by simp only [Array.size_setD]; exact hsz⟩]
  · rw [getD_setD, if_pos ⟨rfl, by simp only [Array.size_setD]; exact hsz⟩]

theorem triplet_untouched (c : Prop) [Decidable c] (a : Array Nat) (p j : Nat)
    (hj : j ∉ [p, p + 1, p + 2]) :
    (if c then ((a.setD p 255).setD (p + 1) 255).setD (p + 2) 255
      else ((a.setD p 0).setD (p + 1) 0).setD (p + 2) 0).getD j 0 = a.getD j 0 := by
  simp only [List.mem_cons, List.mem_singleton, not_or] at hj
  obtain ⟨h0, h1, h2, -⟩ := hj
  split <;>
    rw [getD_setD, if_neg (by rintro ⟨hc, -⟩; exact h2 hc.symm),
      getD_setD, if_neg (by rintro ⟨hc, -⟩; exact h1 hc.symm),
      getD_setD, if_neg (by rintro ⟨hc, -⟩; exact h0 hc.symm)]

theorem triplet_write_binary (c : Prop) [Decidable c] (a : Array Nat) (p j : Nat)
    (hj : j = p ∨ j = p + 1 ∨ j = p + 2) (hsz : j < a.size) :
    (if c then ((a.setD p 255).setD (p + 1) 255).setD (p + 2) 255
      else ((a.setD p 0).setD (p + 1) 0).setD (p + 2) 0).getD j 0 = 0 ∨
    (if c then ((a.setD p 255).setD (p + 1) 255).setD (p + 2) 255
      else ((a.setD p 0).setD (p + 1) 0).setD (p + 2) 0).getD j 0 = 255 := by
  split
  · exact Or.inr (triplet_getD_of a p j 255 hj hsz)
  · exact Or.inl (triplet_getD_of a p j 0 hj hsz)

/-- C1: with the transparent backdrop and feathering disabled (no refine, no
blur), every pixel whose segmentation label is 0 has alpha 0 in the output of
the part_002 `removeBackground` pipeline. -/
theorem removeBackground_alpha_zero (img : Img) (seg : Array Nat)
    (blurImage : Array Nat → Array Nat) (i : Nat)
    (hi : i < seg.size) (hm : seg.getD i 0 = 0)
    (hp : 4 * i + 3 < img.data.size) :
    (removeBackgroundP2 img seg false 0 blurImage).data.getD (4 * i + 3) 0 = 0 := by
  have hred : (removeBackgroundP2 img seg false 0 blurImage).data =
      applyMaskTransparent img.data seg := rfl
  rw [hred]
  unfold applyMaskTransparent
  refine foldl_step_write _ (fun p => if seg.getD p 0 == 0 then [4 * p + 3] else [])
    (fun v => v = 0) img.data.size
    (fun a p => by split <;> simp)
    (applyMask_untouched seg) i (4 * i + 3) ?_ _ img.data rfl
    (List.mem_range.mpr hi) ?_
  · intro a ha
    dsimp only
    rw [if_pos (by simp [hm]), getD_setD, if_pos ⟨rfl, by rw [ha]; exact hp⟩]
  · intro q _ hqi
    dsimp only
    split
    · intro hc
      have := List.mem_singleton.mp hc
      omega
    · simp

/-- Single-pixel opaque test image. -/
def img1 : Img := { width := 1, height := 1, data := #[10, 20, 30, 255] }

theorem removeBackground_alpha_zero_witness :
    (removeBackgroundP2 img1 #[0] false 0 id).data.getD 3 0 = 0 :=
  removeBackground_alpha_zero img1 #[0] id 0 (by decide) (by decide) (by decide)

/-- C2: the mask builder is a pure function of SegmentationLabels and the
dimensions; each pixel of the produced grayscale mask has intensity 255 in
R, G, B exactly when the pixel is labeled foreground and 0 otherwise, and
alpha 255 everywhere. -/
theorem buildMask_values (seg : Array Bool) (i : Nat) (hi : i < seg.size) :
    (buildMask seg).getD (4 * i) 0 = (if seg.getD i false then 255 else 0) ∧
    (buildMask seg).getD (4 * i + 1) 0 = (if seg.getD i false then 255 else 0) ∧
    (buildMask seg).getD (4 * i + 2) 0 = (if seg.getD i false then 255 else 0) ∧
    (buildMask seg).getD (4 * i + 3) 0 = 255 := by
  have hside : ∀ k, k ≤ 3 → ∀ q ∈ List.range seg.size, q ≠ i →
      4 * i + k ∉ [4 * q, 4 * q + 1, 4 * q + 2, 4 * q + 3] := by
    intro k hk q _ hqi hmem
    simp only [List.mem_cons, List.not_mem_nil, or_false] at hmem
    omega
  unfold buildMask
  refine ⟨?_, ?_, ?_, ?_⟩
  · refine foldl_step_write _ (fun p => [4 * p, 4 * p + 1, 4 * p + 2, 4 * p + 3])
      (fun v => v = if seg.getD i false then 255 else 0) (4 * seg.size)
      (fun a p => by simp) (buildMask_untouched seg) i (4 * i) ?_ _ _
      (Array.size_mkArray _ _) (List.mem_range.mpr hi)
      (fun q hq hqi => hside 0 (by omega) q hq hqi)
    intro a ha
    rw [getD_setD, if_neg (by rintro ⟨hc, -⟩; omega),
      getD_setD, if_neg (by rintro ⟨hc, -⟩; omega),
      getD_setD, if_neg (by rintro ⟨hc, -⟩; omega),
      getD_setD, if_pos ⟨rfl, by rw [ha]; omega⟩]
    rfl
  · refine foldl_step_write _ (fun p => [4 * p, 4 * p + 1, 4 * p + 2, 4 * p + 3])
      (fun v => v = if seg.getD i false then 255 else 0) (4 * seg.size)
      (fun a p => by simp) (buildMask_untouched seg) i (4 * i + 1) ?_ _ _
      (Array.size_mkArray _ _) (List.mem_range.mpr hi) (hside 1 (by omega))
    intro a ha
    rw [getD_setD, if_neg (by rintro ⟨hc, -⟩; omega),
      getD_setD, if_neg (by rintro ⟨hc, -⟩; omega),
      getD_setD, if_pos ⟨rfl, by simp only [Array.size_setD]; rw [ha]; omega⟩]
    rfl
  · refine foldl_step_write _ (fun p => [4 * p, 4 * p + 1, 4 * p + 2, 4 * p + 3])
      (fun v => v = if seg.getD i false then 255 else 0) (4 * seg.size)
      (fun a p => by simp) (buildMask_untouched seg) i (4 * i + 2) ?_ _ _
      (Array.size_mkArray _ _) (List.mem_range.mpr hi) (hside 2 (by omega))
    intro a ha
    rw [getD_setD, if_neg (by rintro ⟨hc, -⟩; omega),
      getD_setD, if_pos ⟨rfl, by simp only [Array.size_setD]; rw [ha]; omega⟩]
    rfl
  · refine foldl_step_write _ (fun p => [4 * p, 4 * p + 1, 4 * p + 2, 4 * p + 3])
      (fun v => v = 255) (4 * seg.size)
      (fun a p => by simp) (buildMask_untouched seg) i (4 * i + 3) ?_ _ _
      (Array.size_mkArray _ _) (List.mem_range.mpr hi) (hside 3 (by omega))
    intro a ha
    rw [getD_setD, if_pos ⟨rfl, by simp only [Array.size_setD]; rw [ha]; omega⟩]

theorem buildMask_values_witness :
    (buildMask #[true, false]).getD 0 0 = 255 ∧
    (buildMask #[true, false]).getD 3 0 = 255 ∧
    (buildMask #[true, false]).getD 4 0 = 0 :=
  ⟨(buildMask_values #[true, false] 0 (by decide)).1,
   (buildMask_values #[true, false] 0 (by decide)).2.2.2,
   (buildMask_values #[true, false] 1 (by decide)).1⟩

/-- C3: the CompositeResult produced by removeBackground has exactly the
width and height of the SourceImage (the output canvas is sized from the
image before processing), for every input image and every option choice,
in both the backgroundRemover.ts and the part_001 pipelines. -/
theorem removeBackground_dims (img : Img) (seg : Array Bool) (segN : Array Nat)
    (edgeDilation edgeBlurAmount : Nat)
    (blurMask blurImage : Array Nat → Array Nat) :
    (removeBackgroundBR img seg edgeDilation edgeBlurAmount blurMask
        blurImage).width = img.width ∧
    (removeBackgroundBR img seg edgeDilation edgeBlurAmount blurMask
        blurImage).height = img.height ∧
    (removeBackgroundP1 img segN).width = img.width ∧
    (removeBackgroundP1 img segN).height = img.height :=
  ⟨rfl, rfl, rfl, rfl⟩

/-- C7: with edge-dilation strength 0 and blur amount 0 both refinement
steps are skipped: the backgroundRemover.ts pipeline returns exactly the
destination-in composite of the unrefined mask (for every abstracted blur
filter), and the part_002 pipeline returns exactly the alpha-zeroed image. -/
theorem removeBackground_zero_strength (img : Img) (seg : Array Bool)
    (segN : Array Nat) (blurMask blurImage blurImage2 : Array Nat → Array Nat) :
    removeBackgroundBR img seg 0 0 blurMask blurImage =
      { width := img.width, height := img.height,
        data := destinationIn img.data (buildMask seg) } ∧
    removeBackgroundP2 img segN false 0 blurImage2 =
      { width := img.width, height := img.height,
        data := applyMaskTransparent img.data segN } :=
  ⟨rfl, rfl⟩

/-- C8 (amended): after the blur, part_002 re-thresholds with the
any-channel rule (a pixel becomes 255 when any colour channel exceeds 128)
while backgroundRemover.ts uses the channel average; in both variants every
colour channel of the re-thresholded mask is strictly binary (exactly 0 or
255). -/
theorem rethreshold_binary (data : Array Nat) (j : Nat) (hj : j < data.size)
    (hj4 : j % 4 ≠ 3) :
    ((rethresholdAny data).getD j 0 = 0 ∨ (rethresholdAny data).getD j 0 = 255) ∧
    ((rethresholdAvg data).getD j 0 = 0 ∨ (rethresholdAvg data).getD j 0 = 255) ∧
    (128 < data.getD (4 * (j / 4)) 0 ∨ 128 < data.getD (4 * (j / 4) + 1) 0 ∨
        128 < data.getD (4 * (j / 4) + 2) 0 →
      (rethresholdAny data).getD j 0 = 255) ∧
    (384 < data.getD (4 * (j / 4)) 0 + data.getD (4 * (j / 4) + 1) 0 +
        data.getD (4 * (j / 4) + 2) 0 →
      (rethresholdAvg data).getD j 0 = 255) := by
  have hmem : 4 * (j / 4) ∈ List.range' 0 ((data.size + 3) / 4) 4 :=
    List.mem_range'.mpr ⟨j / 4, by omega, by omega⟩
  have hside : ∀ q ∈ List.range' 0 ((data.size + 3) / 4) 4, q ≠ 4 * (j / 4) →
      j ∉ [q, q + 1, q + 2] ∧
      ∀ m ∈ [4 * (j / 4), 4 * (j / 4) + 1, 4 * (j / 4) + 2], m ∉ [q, q + 1, q + 2] := by
    intro q hq hqp
    rcases List.mem_range'.mp hq with ⟨kq, hkq, rfl⟩
    constructor
    · intro hmem2
      simp only [List.mem_cons, List.not_mem_nil, or_false] at hmem2
      omega
    · intro m hm hmem2
      simp only [List.mem_cons, List.not_mem_nil, or_false] at hm hmem2
      omega
  have hagree : ∀ m ∈ [4 * (j / 4), 4 * (j / 4) + 1, 4 * (j / 4) + 2],
      data.getD m 0 = data.getD m 0 := fun m _ => rfl
  have hnd : (List.range' 0 ((data.size + 3) / 4) 4).Nodup :=
    List.nodup_range' 0 ((data.size + 3) / 4) 4 (by omega)
  refine ⟨?_, ?_, ?_, ?_⟩
  · unfold rethresholdAny
    refine foldl_step_write_frozen _ (fun p => [p, p + 1, p + 2])
      (fun v => v = 0 ∨ v = 255) data.size data
      (fun a p => by split <;> simp)
      (fun a p j2 hj2 => triplet_untouched _ a p j2 hj2)
      (4 * (j / 4)) j ?_ _ data hnd rfl hagree hmem hside
    intro a ha _
    exact triplet_write_binary _ a _ j (by omega) (by omega)
  · unfold rethresholdAvg
    refine foldl_step_write_frozen _ (fun p => [p, p + 1, p + 2])
      (fun v => v = 0 ∨ v = 255) data.size data
      (fun a p => by split <;> simp)
      (fun a p j2 hj2 => triplet_untouched _ a p j2 hj2)
      (4 * (j / 4)) j ?_ _ data hnd rfl hagree hmem hside
    intro a ha _
    exact triplet_write_binary _ a _ j (by omega) (by omega)
  · intro hcond
    unfold rethresholdAny
    refine foldl_step_write_frozen _ (fun p => [p, p + 1, p + 2])
      (fun v => v = 255) data.size data
      (fun a p => by split <;> simp)
      (fun a p j2 hj2 => triplet_untouched _ a p j2 hj2)
      (4 * (j / 4)) j ?_ _ data hnd rfl hagree hmem hside
    intro a ha hag
    have h0 := hag (4 * (j / 4)) (by simp)
    have h1 := hag (4 * (j / 4) + 1) (by simp)
    have h2 := hag (4 * (j / 4) + 2) (by simp)
    rw [if_pos (by rw [h0, h1, h2]; exact hcond)]
    exact triplet_getD_of a _ j 255 (by omega) (by omega)
  · intro hcond
    unfold rethresholdAvg
    refine foldl_step_write_frozen _ (fun p => [p, p + 1, p + 2])
      (fun v => v = 255) data.size data
      (fun a p => by split <;> simp)
      (fun a p j2 hj2 => triplet_untouched _ a p j2 hj2)
      (4 * (j / 4)) j ?_ _ data hnd rfl hagree hmem hside
    intro a ha hag
    have h0 := hag (4 * (j / 4)) (by simp)
    have h1 := hag (4 * (j / 4) + 1) (by simp)
    have h2 := hag (4 * (j / 4) + 2) (by simp)
    rw [if_pos (by rw [h0, h1, h2]; exact hcond)]
    exact triplet_getD_of a _ j 255 (by omega) (by omega)

theorem rethreshold_binary_witness :
    ((rethresholdAny #[200, 0, 0, 255]).getD 0 0 = 0 ∨
      (rethresholdAny #[200, 0, 0, 255]).getD 0 0 = 255) ∧
    ((rethresholdAvg #[200, 0, 0, 255]).getD 0 0 = 0 ∨
      (rethresholdAvg #[200, 0, 0, 255]).getD 0 0 = 255) :=
  ⟨(rethreshold_binary #[200, 0, 0, 255] 0 (by decide) (by decide)).1,
   (rethreshold_binary #[200, 0, 0, 255] 0 (by decide) (by decide)).2.1⟩

/-- C8 (counterexample): the backgroundRemover.ts variant thresholds on the
channel average, not on any single channel: in the one-pixel buffer
(255, 0, 0, 255) the red channel exceeds 128 — the claimed rule demands 255
— yet its re-threshold yields 0; the part_002 variant does yield 255. -/
theorem rethreshold_any_channel_claim_false :
    128 < (#[255, 0, 0, 255] : Array Nat).getD 0 0 ∧
    (rethresholdAvg #[255, 0, 0, 255]).getD 0 0 = 0 ∧
    (rethresholdAny #[255, 0, 0, 255]).getD 0 0 = 255 := by
  decide

/-! ### Settings endpoint (part_010 lines 79-92, shared/schema.ts lines 50-60,
server/storage.ts)

The POST handler first runs `settingsSchema.parse(req.body)`; a ZodError is
answered with status 400 and `storage.updateSettings` is never reached.  The
zod schema requires the model and backdrop type to come from fixed enums and
both thresholds to lie in [0, 100]; `backgroundType`, `backgroundColor`,
`allowResize` and `allowMove` have defaults applied when absent and
`backgroundImage` is optional.  `MemStorage.updateSettings` spreads the
parsed update over the stored record, keeping the record id.  -/

structure ImageSettings where
  id : Nat
  model : String
  alphaMatting : Bool
  foregroundThreshold : Int
  backgroundThreshold : Int
  backgroundType : String
  backgroundColor : String
  backgroundImage : String
  allowResize : Bool
  allowMove : Bool
deriving DecidableEq

/-- Default settings record created by the `MemStorage` constructor. -/
def defaultSettings : ImageSettings :=
  { id := 1, model := "u2net", alphaMatting := false,
    foregroundThreshold := 50, backgroundThreshold := 50,
    backgroundType := "transparent", backgroundColor := "#ffffff",
    backgroundImage := "", allowResize := true, allowMove := true }

/-- Request body of a settings POST; `Option` marks the fields the schema
defaults or keeps optional when they are absent. -/
structure SettingsBody where
  model : String
  alphaMatting : Bool
  foregroundThreshold : Int
  backgroundThreshold : Int
  backgroundType : Option String
  backgroundColor : Option String
  backgroundImage : Option String
  allowResize : Option Bool
  allowMove : Option Bool

/-- Output of a successful `settingsSchema.parse`. -/
structure ParsedSettings where
  model : String
  alphaMatting : Bool
  foregroundThreshold : Int
  backgroundThreshold : Int
  backgroundType : String
  backgroundColor : String
  backgroundImage : Option String
  allowResize : Bool
  allowMove : Bool

def backgroundRemovalModels : List String := ["u2net", "u2netp", "u2net_human_seg"]

def backgroundTypes : List String := ["transparent", "color", "image"]

/-- Validation performed by `settingsSchema.parse`: enum membership for the
model and backdrop type, thresholds within [0, 100], defaults applied. -/
def settingsSchemaParse (b : SettingsBody) : Option ParsedSettings :=
  if b.model ∈ backgroundRemovalModels ∧
      0 ≤ b.foregroundThreshold ∧ b.foregroundThreshold ≤ 100 ∧
      0 ≤ b.backgroundThreshold ∧ b.backgroundThreshold ≤ 100 ∧
      b.backgroundType.getD "transparent" ∈ backgroundTypes
  then some { model := b.model, alphaMatting := b.alphaMatting,
              foregroundThreshold := b.foregroundThreshold,
              backgroundThreshold := b.backgroundThreshold,
              backgroundType := b.backgroundType.getD "transparent",
              backgroundColor := b.backgroundColor.getD "#ffffff",
              backgroundImage := b.backgroundImage,
              allowResize := b.allowResize.getD true,
              allowMove := b.allowMove.getD true }
  else none

/-- `MemStorage.updateSettings`: spread of the parsed update over the stored
record (the id is not part of the insert type and is kept). -/
def updateSettings (store : ImageSettings) (s : ParsedSettings) : ImageSettings :=
  { id := store.id, model := s.model, alphaMatting := s.alphaMatting,
    foregroundThreshold := s.foregroundThreshold,
    backgroundThreshold := s.backgroundThreshold,
    backgroundType := s.backgroundType, backgroundColor := s.backgroundColor,
    backgroundImage := s.backgroundImage.getD store.backgroundImage,
    allowResize := s.allowResize, allowMove := s.allowMove }

/-- POST /api/settings handler: validate, then update; on a validation error
answer 400 with the store untouched. -/
def postSettings (store : ImageSettings) (body : SettingsBody) :
    Nat × ImageSettings :=
  match settingsSchemaParse body with
  | some s => (200, updateSettings store s)
  | none => (400, store)

/-- C9: a settings POST whose body fails validation — in particular any body
with foregroundThreshold above the 0-100 range, such as 150 — is rejected
with a 400 response and leaves the stored settings record unchanged. -/
theorem postSettings_invalid_unchanged (store : ImageSettings)
    (body : SettingsBody)
    (h : 100 < body.foregroundThreshold ∨ settingsSchemaParse body = none) :
    postSettings store body = (400, store) := by
  have hnone : settingsSchemaParse body = none := by
    rcases h with h | h
    · unfold settingsSchemaParse
      rw [if_neg]
      rintro ⟨-, -, hle, -⟩
      omega
    · exact h
  unfold postSettings
  rw [hnone]

/-- Concrete invalid settings POST body with foregroundThreshold = 150. -/
def body150 : SettingsBody :=
  { model := "u2net", alphaMatting := false, foregroundThreshold := 150,
    backgroundThreshold := 50, backgroundType := none, backgroundColor := none,
    backgroundImage := none, allowResize := none, allowMove := none }

theorem postSettings_invalid_unchanged_witness :
    postSettings defaultSettings body150 = (400, defaultSettings) :=
  postSettings_invalid_unchanged defaultSettings body150 (Or.inl (by decide))

/-! ### Lazy model loader (part_001 lines 8-26, backgroundRemover.ts lines 7-19)

`loadModel` checks the module-level `bodyPixModel`; when it is null it starts
`bodyPix.load(...)` and assigns the result after the await.  The null check
happens synchronously at call time and the assignment only at completion, so
the async interleaving is modelled as a small machine: `invoke c` is call `c`
reaching the null check (starting a load when the cache is null), and
`complete c` is the awaited load of call `c` resolving (assigning the cache
and returning the fresh instance).  Model instances are numbered by a fresh
counter; `loadsStarted` counts how many `bodyPix.load` calls were issued.  -/

inductive LoadEvent where
  | invoke (c : Nat)
  | complete (c : Nat)
deriving DecidableEq

structure LoaderState where
  bodyPixModel : Option Nat
  inflight : List Nat
  returned : List (Nat × Nat)
  loadsStarted : Nat
  nextId : Nat
deriving DecidableEq

def initLoader : LoaderState :=
  { bodyPixModel := none, inflight := [], returned := [],
    loadsStarted := 0, nextId := 0 }

def loadStep (s : LoaderState) : LoadEvent → LoaderState
  | .invoke c =>
    match s.bodyPixModel with
    | some m => { s with returned := (c, m) :: s.returned }
    | none => { s with inflight := c :: s.inflight,
                       loadsStarted := s.loadsStarted + 1 }
  | .complete c =>
    if c ∈ s.inflight then
      { s with bodyPixModel := some s.nextId,
               inflight := s.inflight.erase c,
               returned := (c, s.nextId) :: s.returned,
               nextId := s.nextId + 1 }
    else s

def runLoader (evs : List LoadEvent) : LoaderState :=
  evs.foldl loadStep initLoader

/-- C10 (counterexample): two calls that both reach the null check before
either load resolves each start their own `bodyPix.load`: after the trace
invoke 0, invoke 1, complete 0, complete 1, two loads have been started and
the two calls returned two different model instances — concurrent
initialization attempts do not collapse to a single in-flight load. -/
theorem loadModel_parallel_loads_claim_false :
    (runLoader [LoadEvent.invoke 0, LoadEvent.invoke 1,
      LoadEvent.complete 0, LoadEvent.complete 1]).loadsStarted = 2 ∧
    (runLoader [LoadEvent.invoke 0, LoadEvent.invoke 1,
      LoadEvent.complete 0, LoadEvent.complete 1]).returned =
      [(1, 1), (0, 0)] := by
  decide

/-- C10 (amended): the cache does work sequentially: any call invoked while
`bodyPixModel` holds a cached instance starts no new load and immediately
returns that same instance, leaving the cache unchanged. -/
theorem loadModel_cached_reuse (s : LoaderState) (m c : Nat)
    (h : s.bodyPixModel = some m) :
    (loadStep s (LoadEvent.invoke c)).loadsStarted = s.loadsStarted ∧
    (loadStep s (LoadEvent.invoke c)).bodyPixModel = some m ∧
    (loadStep s (LoadEvent.invoke c)).returned = (c, m) :: s.returned := by
  simp [loadStep, h]

theorem loadModel_cached_reuse_witness :
    (loadStep (runLoader [LoadEvent.invoke 0, LoadEvent.complete 0])
        (LoadEvent.invoke 5)).loadsStarted =
      (runLoader [LoadEvent.invoke 0, LoadEvent.complete 0]).loadsStarted ∧
    (loadStep (runLoader [LoadEvent.invoke 0, LoadEvent.complete 0])
        (LoadEvent.invoke 5)).bodyPixModel = some 0 :=
  ⟨(loadModel_cached_reuse (runLoader [LoadEvent.invoke 0, LoadEvent.complete 0])
      0 5 (by decide)).1,
   (loadModel_cached_reuse (runLoader [LoadEvent.invoke 0, LoadEvent.complete 0])
      0 5 (by decide)).2.1⟩
